import Mathlib

/-!
Verification of the RFI chamber capture orchestrator (`capture_data.py`).

The numeric quantities the program handles (frequencies, resolutions,
integration times, astropy quantities) are modelled as rationals; Python
integers are modelled as `Int`; finite streams of stdout lines as lists.
Each definition below names the source construct it embeds.
-/

/-- Python `int.bit_length`: number of bits needed to represent the
absolute value, so that `(0).bit_length() = 0` and `(-1).bit_length() = 1`.
Models the call `(fft_length - 1).bit_length()` at `capture_data.py:419`. -/
def pyBitLength (z : ℤ) : ℕ := Nat.size z.natAbs

/-- Python `int(x)` applied to a real quantity: truncation toward zero
(`capture_data.py:416` applies it to a positive quantity). -/
def py_int (x : ℚ) : ℤ := if 0 ≤ x then ⌊x⌋ else ⌈x⌉

/-- Line 413: `channel_bandwidth = sampling_rate / first_stage_nchans`. -/
def channel_bandwidth (samplingRate : ℚ) (firstStageNchans : ℕ) : ℚ :=
  samplingRate / (firstStageNchans : ℚ)

/-- Line 419: `fft_length = 2**((fft_length-1).bit_length())`, the
power-of-two rounding step applied to the raw FFT length. -/
def nextPow2 (n : ℤ) : ℤ := 2 ^ pyBitLength (n - 1)

/-- Lines 416-419: the raw FFT length
`int(channel_bandwidth / resolution)` rounded to a power of two. -/
def fft_length (channelBandwidth resolution : ℚ) : ℤ :=
  nextPow2 (py_int (channelBandwidth / resolution))

/-- Line 17: `MAX_FFT_LENGTH = 1 << 28`. -/
def MAX_FFT_LENGTH : ℤ := 2 ^ 28

/-- Line 429: `actual_resolution = channel_bandwidth / fft_length`. -/
def actual_resolution (channelBandwidth : ℚ) (fftLength : ℤ) : ℚ :=
  channelBandwidth / (fftLength : ℚ)

/-- Lines 434-435:
`naccumulate = int(np.ceil(integration_time * actual_resolution))`
(the ceiling is already an integer, so the outer `int` is the identity). -/
def naccumulate (integrationTime actualResolution : ℚ) : ℤ :=
  ⌈integrationTime * actualResolution⌉

/-- A line read from the receiver's stdout stream: a `STAT` report keeps
the two integer fields `MKRECVStdoutHandler.parse_stat_line` extracts
(`sp[1]` = total slots, `sp[3]` = filled slots); anything else is opaque. -/
inductive MkLine where
  | stat (total filled : ℕ)
  | other
  deriving DecidableEq

/-- `MKRECVStdoutHandler.parse_stat_line` (lines 120-128): warn iff
`total_slots != filled_slots`; the warning carries the reported loss
percentage `100 * (1 - filled_slots / total_slots)`. -/
def parse_stat_line (total filled : ℕ) : List ℚ :=
  if total ≠ filled then [100 * (1 - (filled : ℚ) / (total : ℚ))] else []

/-- `MKRECVStdoutHandler.run` (lines 130-139) over a finite stream, with
the mutable `_nskip` counter threaded through: every `STAT` line decrements
it first; the line is parsed only when the decremented counter is not
strictly positive.  Returns the emitted warnings in order. -/
def handlerRun : ℤ → List MkLine → List ℚ
  | _, [] => []
  | nskip, MkLine.other :: rest => handlerRun nskip rest
  | nskip, MkLine.stat t f :: rest =>
    if nskip - 1 > 0 then handlerRun (nskip - 1) rest
    else parse_stat_line t f ++ handlerRun (nskip - 1) rest

/-- Number of `STAT` reports in a stream of lines. -/
def statCount : List MkLine → ℕ
  | [] => 0
  | MkLine.stat _ _ :: rest => statCount rest + 1
  | MkLine.other :: rest => statCount rest

/-- `Executor.run_all_measurements` (lines 475-481): run each configured
measurement in order; an exception from one is caught and logged and the
loop continues.  The result records, per measurement, the error it raised
(if any); the function itself never propagates an error. -/
def run_all_measurements {α E : Type} (runOne : α → Except E Unit) :
    List α → List (α × Option E)
  | [] => []
  | m :: ms =>
    (m, match runOne m with
        | Except.ok _ => none
        | Except.error e => some e) :: run_all_measurements runOne ms

/- ### Helper lemmas -/

/-- Characterisation used to evaluate `Nat.size` at small arguments. -/
lemma nat_size_eq_of_bounds {n k : ℕ} (h1 : n < 2 ^ k) (h2 : 2 ^ (k - 1) ≤ n)
    (hk : 1 ≤ k) : Nat.size n = k := by
  have hle : Nat.size n ≤ k := Nat.size_le.mpr h1
  have hlt : k - 1 < Nat.size n := Nat.lt_size.mpr h2
  omega

/-- Consuming a prefix with fewer `STAT` reports than the remaining skip
budget emits nothing and merely decrements the counter. -/
lemma handlerRun_skip_prefix (p : List MkLine) :
    ∀ (nskip : ℤ) (l : List MkLine), (statCount p : ℤ) < nskip →
      handlerRun nskip (p ++ l) = handlerRun (nskip - statCount p) l := by
  induction p with
  | nil =>
    intro nskip l _
    simp [statCount]
  | cons hd tl ih =>
    intro nskip l hlt
    cases hd with
    | other =>
      have := ih nskip l (by simpa [statCount] using hlt)
      simpa [handlerRun, statCount] using this
    | stat t f =>
      have hcount : (statCount (MkLine.stat t f :: tl) : ℤ) = statCount tl + 1 := by
        simp [statCount]
      have hlt' : (statCount tl : ℤ) < nskip - 1 := by omega
      have hpos : nskip - 1 > 0 := by
        have : (0 : ℤ) ≤ statCount tl := Int.ofNat_nonneg _
        omega
      have := ih (nskip - 1) l hlt'
      rw [List.cons_append, handlerRun, if_pos hpos, this]
      congr 1
      omega

/- ### C4: warm-up skip of the stream monitor -/

/-- C4 (counterexample): with skip count 1 the very first `STAT` report is
already parsed and a lossy first report does emit a warning, contradicting
the claim that the first `skipCount` reports are never parsed. -/
theorem c4_counterexample :
    handlerRun 1 [MkLine.stat 100 90] ≠ [] := by
  norm_num [handlerRun, parse_stat_line]

/-- C4 (amended): for skip count `s ≥ 1` only the first `s - 1` STAT
reports are discarded regardless of content; the `s`-th STAT report (and
every later one) is parsed for loss. -/
theorem c4_amended_skip (s : ℤ) (hs : 1 ≤ s) (p : List MkLine)
    (hp : (statCount p : ℤ) = s - 1) :
    handlerRun s p = [] ∧
    ∀ (t f : ℕ) (rest : List MkLine),
      handlerRun s (p ++ MkLine.stat t f :: rest) =
        parse_stat_line t f ++ handlerRun 0 rest := by
  constructor
  · have h := handlerRun_skip_prefix p s [] (by omega)
    rw [List.append_nil] at h
    rw [h]
    rfl
  · intro t f rest
    have h := handlerRun_skip_prefix p s (MkLine.stat t f :: rest) (by omega)
    rw [h, hp]
    have hs1 : s - (s - 1) = 1 := by ring
    rw [hs1, handlerRun]
    norm_num

/-- Witness for C4 (amended): skip count 3, a warm-up prefix holding two
STAT reports (one of them lossy) emits nothing, and the third STAT report
is parsed. -/
theorem c4_witness :
    handlerRun 3 [MkLine.stat 1 2, MkLine.other, MkLine.stat 7 7] = [] ∧
    handlerRun 3 ([MkLine.stat 1 2, MkLine.other, MkLine.stat 7 7] ++
        MkLine.stat 10 9 :: []) =
      parse_stat_line 10 9 ++ handlerRun 0 [] := by
  have h := c4_amended_skip 3 (by norm_num)
    [MkLine.stat 1 2, MkLine.other, MkLine.stat 7 7]
    (by norm_num [statCount])
  exact ⟨h.1, h.2 10 9 []⟩

/- ### C8: loss warning contents -/

/-- C8: a parsed STAT report with positive total emits a warning iff
`filled ≠ total`, and the warning reports exactly
`100 * (1 - filled / total)` percent loss. -/
theorem c8_loss_warning_iff (t f : ℕ) (ht : 0 < t) :
    (parse_stat_line t f ≠ [] ↔ f ≠ t) ∧
    (f ≠ t → parse_stat_line t f = [100 * (1 - (f : ℚ) / (t : ℚ))]) := by
  constructor
  · constructor
    · intro hne
      intro hft
      apply hne
      rw [parse_stat_line, if_neg]
      omega
    · intro hft
      rw [parse_stat_line, if_pos (by omega)]
      simp
  · intro hft
    rw [parse_stat_line, if_pos (by omega)]

/-- Witness for C8: totalSlots=100, filledSlots=100 emits no warning;
filledSlots=90 emits a warning reporting 10 percent loss. -/
theorem c8_witness :
    parse_stat_line 100 100 = [] ∧
    parse_stat_line 100 90 = [100 * (1 - (90 : ℚ) / 100)] ∧
    (100 : ℚ) * (1 - (90 : ℚ) / 100) = 10 := by
  refine ⟨?_, (c8_loss_warning_iff 100 90 (by norm_num)).2 (by norm_num), by norm_num⟩
  have h := (c8_loss_warning_iff 100 100 (by norm_num)).1
  by_contra hne
  exact (h.mp hne) rfl

/- ### C9: measurement failures are isolated -/

/-- C9: whatever each measurement does (including raising an error), the
executor attempts every configured measurement in order and itself raises
nothing: the result list covers the whole configuration. -/
theorem c9_failures_isolated {α E : Type} (runOne : α → Except E Unit)
    (ms : List α) :
    (run_all_measurements runOne ms).map Prod.fst = ms := by
  induction ms with
  | nil => rfl
  | cons m rest ih =>
    rw [run_all_measurements]
    simp [ih]

/- ### C10: the power-of-two rounding step -/

/-- C10: for every raw FFT length `n ≥ 1` the rounding step
`2^((n-1).bit_length())` yields the smallest power of two `≥ n`, and for
`n = 0` it yields `2`. -/
theorem c10_next_pow2_correct :
    (∀ n : ℤ, 1 ≤ n →
      n ≤ nextPow2 n ∧
      (∃ k : ℕ, nextPow2 n = 2 ^ k) ∧
      ∀ j : ℕ, n ≤ 2 ^ j → nextPow2 n ≤ 2 ^ j) ∧
    nextPow2 0 = 2 := by
  constructor
  · intro n hn
    set m : ℕ := (n - 1).natAbs with hm_def
    have hm : (m : ℤ) = n - 1 := Int.natAbs_of_nonneg (by omega)
    have hL : nextPow2 n = 2 ^ Nat.size m := by
      rw [nextPow2, pyBitLength]
    have hmlt : m < 2 ^ Nat.size m := Nat.lt_size_self m
    refine ⟨?_, ⟨Nat.size m, hL⟩, ?_⟩
    · rw [hL]
      have : (m : ℤ) < 2 ^ Nat.size m := by exact_mod_cast hmlt
      omega
    · intro j hj
      rw [hL]
      have hmj : m < 2 ^ j := by
        have : (m : ℤ) < 2 ^ j := by omega
        exact_mod_cast this
      have hsj : Nat.size m ≤ j := Nat.size_le.mpr hmj
      exact_mod_cast Nat.pow_le_pow_right (by norm_num) hsj
  · have h1 : ((0 : ℤ) - 1).natAbs = 1 := rfl
    rw [nextPow2, pyBitLength, h1, Nat.size_one]
    rfl

/-- Witness for C10: at raw length 5 the rounding yields a power of two
between 5 and 8. -/
theorem c10_witness :
    5 ≤ nextPow2 5 ∧ nextPow2 5 ≤ 2 ^ 3 := by
  have h := c10_next_pow2_correct.1 5 (by norm_num)
  exact ⟨h.1, h.2.2 3 (by norm_num)⟩

/- ### C5: accumulation count -/

/-- C5: for positive desired integration time and actual resolution, the
accumulation count is at least 1 and is the least integer `k` with
`k / actualResolution ≥ integrationTime`; an exactly-integer product maps
to itself. -/
theorem c5_accumulate_least (t r : ℚ) (ht : 0 < t) (hr : 0 < r) :
    1 ≤ naccumulate t r ∧
    t ≤ (naccumulate t r : ℚ) / r ∧
    (∀ k : ℤ, t ≤ (k : ℚ) / r → naccumulate t r ≤ k) ∧
    (∀ m : ℤ, t * r = (m : ℚ) → naccumulate t r = m) := by
  refine ⟨?_, ?_, ?_, ?_⟩
  · exact Int.ceil_pos.mpr (mul_pos ht hr)
  · rw [le_div_iff hr]
    calc t * r ≤ (⌈t * r⌉ : ℚ) := Int.le_ceil _
    _ = (naccumulate t r : ℚ) := by rw [naccumulate]
  · intro k hk
    rw [le_div_iff hr] at hk
    exact Int.ceil_le.mpr hk
  · intro m hm
    rw [naccumulate, hm, Int.ceil_intCast]

/-- Witness for C5: integration time 3/2 and resolution 2 give exactly 3
accumulated spectra (the exact-integer boundary case). -/
theorem c5_witness :
    1 ≤ naccumulate (3 / 2) 2 ∧
    (3 / 2 : ℚ) ≤ (naccumulate (3 / 2) 2 : ℚ) / 2 ∧
    naccumulate (3 / 2) 2 ≤ 3 ∧
    naccumulate (3 / 2) 2 = 3 := by
  have h := c5_accumulate_least (3 / 2) 2 (by norm_num) (by norm_num)
  exact ⟨h.1, h.2.1, h.2.2.1 3 (by norm_num), h.2.2.2 3 (by norm_num)⟩

/- ### C2: FFT length vs desired resolution -/

/-- C2 (counterexample): sampling rate 9 Hz, one first-stage channel,
desired resolution 2 Hz.  Channelization succeeds with `fft_length = 4`
(raw length `int(9/2) = 4` is already a power of two), yet
`channelBandwidth / fftLength = 9/4 > 2`: the claimed lower bound
`channelBandwidth / fftLength ≤ desiredResolution` fails. -/
theorem c2_counterexample :
    fft_length (channel_bandwidth 9 1) 2 = 4 ∧
    fft_length (channel_bandwidth 9 1) 2 ≤ MAX_FFT_LENGTH ∧
    ¬(channel_bandwidth 9 1 / (fft_length (channel_bandwidth 9 1) 2 : ℚ) ≤ 2) := by
  have hcb : channel_bandwidth 9 1 = 9 := by norm_num [channel_bandwidth]
  have hfloor : ⌊(9 : ℚ) / 2⌋ = 4 := by
    rw [Int.floor_eq_iff]
    norm_num
  have hpy : py_int ((9 : ℚ) / 2) = 4 := by
    rw [py_int, if_pos (by norm_num), hfloor]
  have hsize : Nat.size 3 = 2 :=
    nat_size_eq_of_bounds (by norm_num) (by norm_num) (by norm_num)
  have h4 : fft_length (channel_bandwidth 9 1) 2 = 4 := by
    rw [hcb, fft_length, hpy, nextPow2, pyBitLength]
    have h3 : ((4 : ℤ) - 1).natAbs = 3 := by decide
    rw [h3, hsize]
    decide
  refine ⟨h4, ?_, ?_⟩
  · rw [h4, MAX_FFT_LENGTH]
    norm_num
  · rw [h4, hcb]
    norm_num

/-- C2 (amended): whenever the desired resolution is no coarser than the
first-stage channel bandwidth, `fftLength` is a power of two and the
actual resolution lies strictly within a factor of two of the desired one:
`channelBandwidth / fftLength < 2 * desiredResolution` and
`desiredResolution < channelBandwidth / (fftLength / 2)`.  The original
lower bound `channelBandwidth / fftLength ≤ desiredResolution` does not
hold in general because the raw length is floored before rounding. -/
theorem c2_amended_fft_bounds (q : ℚ) (c : ℕ) (r : ℚ)
    (hq : 0 < q) (hc : 1 ≤ c) (hr : 0 < r)
    (hres : r ≤ channel_bandwidth q c) :
    (∃ k : ℕ, fft_length (channel_bandwidth q c) r = 2 ^ k) ∧
    channel_bandwidth q c / (fft_length (channel_bandwidth q c) r : ℚ) < 2 * r ∧
    r < channel_bandwidth q c / ((fft_length (channel_bandwidth q c) r : ℚ) / 2) := by
  set cb := channel_bandwidth q c with hcb_def
  have hc0 : (0 : ℚ) < (c : ℚ) := by exact_mod_cast Nat.lt_of_lt_of_le Nat.zero_lt_one hc
  have hcb : 0 < cb := div_pos hq hc0
  set x := cb / r with hx_def
  have hx0 : 0 < x := div_pos hcb hr
  have hx1 : 1 ≤ x := by
    rw [hx_def, le_div_iff₀ hr, one_mul]
    exact hres
  have hpy : py_int x = ⌊x⌋ := if_pos hx0.le
  have hn1 : (1 : ℤ) ≤ ⌊x⌋ := Int.le_floor.mpr (by exact_mod_cast hx1)
  set m : ℕ := (⌊x⌋ - 1).natAbs with hm_def
  have hm : (m : ℤ) = ⌊x⌋ - 1 := Int.natAbs_of_nonneg (by omega)
  set s : ℕ := Nat.size m with hs_def
  have hLdef : fft_length cb r = 2 ^ s := by
    rw [fft_length, hpy, nextPow2, pyBitLength]
  have hmlt : m < 2 ^ s := Nat.lt_size_self m
  have hnL : ⌊x⌋ ≤ 2 ^ s := by
    have h1 : (m : ℤ) < 2 ^ s := by exact_mod_cast hmlt
    linarith [hm, h1]
  have hLlt : (2 : ℤ) ^ s < 2 * ⌊x⌋ := by
    by_cases hm0 : m = 0
    · have hs0 : s = 0 := by rw [hs_def, hm0, Nat.size_zero]
      have hx_eq : ⌊x⌋ = 1 := by omega
      rw [hs0, hx_eq]
      norm_num
    · have hs1 : 1 ≤ s := by
        have hpos := Nat.size_pos.mpr (Nat.pos_of_ne_zero hm0)
        omega
      have h2 : 2 ^ (s - 1) ≤ m := Nat.lt_size.mp (by omega)
      have hss : 2 ^ s = 2 * 2 ^ (s - 1) := by
        conv_lhs => rw [show s = (s - 1) + 1 by omega]
        rw [pow_succ]
        ring
      have h2i : (2 : ℤ) ^ (s - 1) ≤ (m : ℤ) := by exact_mod_cast h2
      have hssi : (2 : ℤ) ^ s = 2 * 2 ^ (s - 1) := by exact_mod_cast hss
      linarith [hm, h2i, hssi]
  have hfl : (⌊x⌋ : ℚ) ≤ x := Int.floor_le x
  have hfu : x < ⌊x⌋ + 1 := Int.lt_floor_add_one x
  have hLQ : (fft_length cb r : ℚ) = 2 ^ s := by exact_mod_cast hLdef
  have hLpos : (0 : ℚ) < 2 ^ s := by positivity
  have h1L : (1 : ℚ) ≤ 2 ^ s := by exact_mod_cast Nat.one_le_two_pow
  have hnLQ : (⌊x⌋ : ℚ) ≤ 2 ^ s := by exact_mod_cast hnL
  have hLltQ : (2 : ℚ) ^ s < 2 * (⌊x⌋ : ℚ) := by exact_mod_cast hLlt
  have hcbx : cb = x * r := by
    rw [hx_def, div_mul_cancel₀ _ (ne_of_gt hr)]
  refine ⟨⟨s, hLdef⟩, ?_, ?_⟩
  · rw [hLQ, div_lt_iff₀ hLpos]
    have hint1 : x * r < ((2 : ℚ) ^ s + 1) * r :=
      mul_lt_mul_of_pos_right (by linarith) hr
    have hint2 : ((2 : ℚ) ^ s + 1) * r ≤ (2 * 2 ^ s) * r :=
      mul_le_mul_of_nonneg_right (by linarith) hr.le
    linarith [hcbx, hint1, hint2]
  · rw [hLQ, lt_div_iff₀ (by positivity : (0 : ℚ) < 2 ^ s / 2)]
    have hx_gt : (2 : ℚ) ^ s / 2 < x := by linarith
    have hmul := mul_lt_mul_of_pos_left hx_gt hr
    linarith [hcbx, hmul]

/-- Witness for C2 (amended): sampling rate 8, one first-stage channel,
resolution 1; the rounded FFT length keeps the actual resolution within a
factor of two of the desired one. -/
theorem c2_witness :
    channel_bandwidth 8 1 / (fft_length (channel_bandwidth 8 1) 1 : ℚ) < 2 * 1 ∧
    (1 : ℚ) < channel_bandwidth 8 1 / ((fft_length (channel_bandwidth 8 1) 1 : ℚ) / 2) := by
  have h := c2_amended_fft_bounds 8 1 1 (by norm_num) (by norm_num)
    (by norm_num) (by norm_num [channel_bandwidth])
  exact ⟨h.2.1, h.2.2⟩

/- ### Frequency sweep planner (C3, C7) -/

/-- The `while True` loop of `Measurement.get_centre_frequencies`
(lines 228-232): stop as soon as the current centre's upper
half-bandwidth edge passes the end of the range, otherwise step by one
bandwidth and append.  The positivity of the bandwidth is what makes the
Python loop terminate and supplies the termination measure here. -/
def sweepLoop (fend bw : ℚ) (hbw : 0 < bw) (freq : ℚ) : List ℚ :=
  if h : freq + bw / 2 > fend then []
  else (freq + bw) :: sweepLoop fend bw hbw (freq + bw)
termination_by (⌈(fend - freq) / bw⌉).toNat
decreasing_by
  rw [not_lt] at h
  have hbw' : bw ≠ 0 := ne_of_gt hbw
  have hone : (0 : ℤ) < ⌈(fend - freq) / bw⌉ := by
    apply Int.ceil_pos.mpr
    apply div_pos _ hbw
    linarith
  have hstep : (fend - (freq + bw)) / bw = (fend - freq) / bw - 1 := by
    field_simp
    ring
  rw [hstep, Int.ceil_sub_one]
  omega

/-- `Measurement.get_centre_frequencies` (lines 223-233): the first centre
`start + bandwidth/2` is appended unconditionally, then the loop runs.
(With a non-positive bandwidth the Python loop need not terminate; the
claims only concern positive bandwidths, so that case is cut off.) -/
def get_centre_frequencies (fstart fend bw : ℚ) : List ℚ :=
  if hbw : 0 < bw then
    (fstart + bw / 2) :: sweepLoop fend bw hbw (fstart + bw / 2)
  else [fstart + bw / 2]

/-- Every centre the loop appends keeps its lower half-bandwidth edge at
or below the end of the range. -/
lemma sweepLoop_mem_le (fend bw : ℚ) (hbw : 0 < bw) :
    ∀ (freq : ℚ), ∀ c ∈ sweepLoop fend bw hbw freq, c - bw / 2 ≤ fend := by
  refine sweepLoop.induct fend bw hbw
    (fun fr => ∀ c ∈ sweepLoop fend bw hbw fr, c - bw / 2 ≤ fend) ?_ ?_
  · intro freq h c hc
    rw [sweepLoop, dif_pos h] at hc
    simp at hc
  · intro freq h ih c hc
    rw [sweepLoop, dif_neg h] at hc
    rcases List.mem_cons.mp hc with hceq | hcm
    · subst hceq
      rw [not_lt] at h
      linarith
    · exact ih c hcm

/-- Consecutive centres produced by the loop differ by exactly one
bandwidth, starting from the seed centre. -/
lemma sweepLoop_chain (fend bw : ℚ) (hbw : 0 < bw) :
    ∀ (freq : ℚ),
      List.Chain (fun a b => b = a + bw) freq (sweepLoop fend bw hbw freq) := by
  refine sweepLoop.induct fend bw hbw
    (fun fr => List.Chain (fun a b => b = a + bw) fr (sweepLoop fend bw hbw fr)) ?_ ?_
  · intro freq h
    rw [sweepLoop, dif_pos h]
    exact List.Chain.nil
  · intro freq h ih
    rw [sweepLoop, dif_neg h]
    exact List.Chain.cons rfl ih

/-- Concrete evaluation of the planner on the boundary range 0..40 with
bandwidth 40: the loop appends one more centre whose lower edge lands
exactly on the end of the range. -/
lemma sweep_eval_boundary : get_centre_frequencies 0 40 40 = [20, 60] := by
  rw [get_centre_frequencies, dif_pos (by norm_num : (0 : ℚ) < 40)]
  rw [sweepLoop, dif_neg (by norm_num)]
  rw [sweepLoop, dif_pos (by norm_num)]
  norm_num

/- ### C3: upper edge of each planned centre -/

/-- C3 (counterexample): range 0..40 with analysis bandwidth 40 plans the
centres 20 and 60; the final centre has `60 - 40/2 = 40`, equal to the end
of the range, so the claimed strict bound `centre - bandwidth/2 < end`
fails. -/
theorem c3_counterexample :
    (60 : ℚ) ∈ get_centre_frequencies 0 40 40 ∧ ¬((60 : ℚ) - 40 / 2 < 40) := by
  constructor
  · rw [sweep_eval_boundary]
    norm_num
  · norm_num

/-- C3 (amended): every centre returned by the sweep planner satisfies
`centre - bandwidth/2 ≤ end`; the bound is tight (equality occurs when the
range splits exactly), so only the non-strict inequality holds. -/
theorem c3_amended_centres_le_end (fstart fend bw : ℚ)
    (hrange : fstart < fend) (hbw : 0 < bw) :
    ∀ c ∈ get_centre_frequencies fstart fend bw, c - bw / 2 ≤ fend := by
  intro c hc
  rw [get_centre_frequencies, dif_pos hbw] at hc
  rcases List.mem_cons.mp hc with hceq | hcm
  · subst hceq
    linarith
  · exact sweepLoop_mem_le fend bw hbw (fstart + bw / 2) c hcm

/-- Witness for C3 (amended): the boundary centre 60 of the 0..40 sweep
satisfies the non-strict bound. -/
theorem c3_witness : (60 : ℚ) - 40 / 2 ≤ 40 :=
  c3_amended_centres_le_end 0 40 40 (by norm_num) (by norm_num) 60
    (by rw [sweep_eval_boundary]; norm_num)

/- ### C7: shape of the sweep plan -/

/-- C7: for any valid range and positive bandwidth the planner returns a
non-empty finite sequence whose first element is `start + bandwidth/2` and
whose consecutive elements differ by exactly one bandwidth. -/
theorem c7_sweep_structure (fstart fend bw : ℚ)
    (hrange : fstart < fend) (hbw : 0 < bw) :
    get_centre_frequencies fstart fend bw ≠ [] ∧
    (get_centre_frequencies fstart fend bw).head? = some (fstart + bw / 2) ∧
    List.Chain' (fun a b => b = a + bw) (get_centre_frequencies fstart fend bw) := by
  rw [get_centre_frequencies, dif_pos hbw]
  refine ⟨by simp, by simp, ?_⟩
  exact sweepLoop_chain fend bw hbw (fstart + bw / 2)

/-- Witness for C7: the 0..100 range at bandwidth 40 yields a non-empty
plan starting at 20. -/
theorem c7_witness :
    get_centre_frequencies 0 100 40 ≠ [] ∧
    (get_centre_frequencies 0 100 40).head? = some (0 + 40 / 2) := by
  have h := c7_sweep_structure 0 100 40 (by norm_num) (by norm_num)
  exact ⟨h.1, h.2.1⟩

/- ### C6: FrequencyOutOfRange handling in the sweep loop -/

/-- Outcome of `SpectrumAnalyserInterface.set_centre_frequency` followed by
`check_error` (lines 167-178 and 196-198): success, the device code `-222`
(`DataOutOfRangeException`), or any other nonzero code
(`SpectrumAnalyserException`). -/
inductive SetFreqOutcome where
  | ok
  | outOfRange
  | fault
  deriving DecidableEq

/-- Observable result of the per-frequency loop of
`Executor.run_measurement` (lines 447-473). -/
structure SweepResult where
  freqsSet : List ℚ
  headersWritten : List ℚ
  dataCaptured : List ℚ
  fault : Bool
  deriving DecidableEq

/-- The per-frequency loop of `Executor.run_measurement` (lines 447-473):
for each planned centre, set the centre frequency; on
`DataOutOfRangeException` log and `break` (no further step runs, nothing
propagates); on any other device fault the exception propagates.  On
success the metadata header is written and then the capture runs; a
capture failure propagates after the header was already written. -/
def run_freq_loop (setFreq : ℚ → SetFreqOutcome) (captureOk : ℚ → Bool) :
    List ℚ → SweepResult
  | [] => ⟨[], [], [], false⟩
  | f :: fs =>
    match setFreq f with
    | SetFreqOutcome.outOfRange => ⟨[f], [], [], false⟩
    | SetFreqOutcome.fault => ⟨[f], [], [], true⟩
    | SetFreqOutcome.ok =>
      if captureOk f then
        let r := run_freq_loop setFreq captureOk fs
        ⟨f :: r.freqsSet, f :: r.headersWritten, f :: r.dataCaptured, r.fault⟩
      else ⟨[f], [f], [], true⟩

/-- C6: if the first `k` steps complete and setting the centre frequency
of step `k+1` reports the out-of-range device error, then exactly the
completed steps keep their header and data files, steps after `k+1` are
never attempted (no frequency setting, header, or capture), and no error
propagates out of the measurement. -/
theorem c6_freq_out_of_range_aborts_rest (setFreq : ℚ → SetFreqOutcome)
    (captureOk : ℚ → Bool) (pre : List ℚ) (f : ℚ) (post : List ℚ)
    (hpre : ∀ g ∈ pre, setFreq g = SetFreqOutcome.ok ∧ captureOk g = true)
    (hf : setFreq f = SetFreqOutcome.outOfRange) :
    run_freq_loop setFreq captureOk (pre ++ f :: post) =
      ⟨pre ++ [f], pre, pre, false⟩ := by
  induction pre with
  | nil =>
    rw [List.nil_append, run_freq_loop, hf]
    simp
  | cons g gs ih =>
    have hg := hpre g (List.mem_cons_self g gs)
    have hgs : ∀ g ∈ gs, setFreq g = SetFreqOutcome.ok ∧ captureOk g = true :=
      fun x hx => hpre x (List.mem_cons_of_mem g hx)
    rw [List.cons_append, run_freq_loop, hg.1, if_pos hg.2, ih hgs]
    simp

/-- Witness for C6: four planned centres, the third out of range; the loop
completes the first two steps, attempts the third frequency, writes no
third-step file and reports no fault. -/
theorem c6_witness :
    run_freq_loop (fun q => if q = 30 then SetFreqOutcome.outOfRange
        else SetFreqOutcome.ok)
      (fun _ => true) ([10, 20] ++ 30 :: [40]) =
      ⟨[10, 20] ++ [30], [10, 20], [10, 20], false⟩ := by
  apply c6_freq_out_of_range_aborts_rest
  · intro g hg
    rcases List.mem_cons.mp hg with h10 | hg2
    · subst h10
      norm_num
    · rcases List.mem_cons.mp hg2 with h20 | hg3
      · subst h20
        norm_num
      · simp at hg3
  · norm_num

/- ### C1: capture-cycle process ordering -/

/-- Observable actions of `Spectrometer.record` (lines 270-326), in
program order.  `waitReadinessMarker` stands for the readiness wait the
specification describes (blocking on a recognizable spectrometer log
marker); it is part of the event vocabulary so that its absence from the
actual trace can be stated. -/
inductive RecEvent where
  | writeConfig (passthroughMode : Bool)
  | destroyBuffer
  | createBuffer
  | launchSpectrometer
  | launchReceiver
  | attachMonitor
  | waitReadinessMarker
  | waitSpectrometerExit
  | terminateReceiver
  | stopMonitor
  deriving DecidableEq

/-- Trace of `Spectrometer.record` on its success path: write the MKRECV
configuration (mode chosen solely by `input_nchans == 1`), recycle the
DADA buffer, start `rsspectrometer`, immediately start `mkrecv_rnt`,
attach the stdout monitor, wait for the spectrometer to exit, terminate
the receiver, stop the monitor.  No step between the two launches reads
the spectrometer's output or checks its liveness. -/
def record (input_nchans : ℕ) : List RecEvent :=
  [RecEvent.writeConfig (input_nchans == 1),
   RecEvent.destroyBuffer,
   RecEvent.createBuffer,
   RecEvent.launchSpectrometer,
   RecEvent.launchReceiver,
   RecEvent.attachMonitor,
   RecEvent.waitSpectrometerExit,
   RecEvent.terminateReceiver,
   RecEvent.stopMonitor]

/-- C1 (counterexample): in the capture cycle for 16 input channels the
receiver is launched although no readiness wait on the spectrometer ever
occurs — `record` contains no readiness event at all, so the receiver
launch is not conditioned on the spectrometer having reported readiness,
and no startup failure path exists. -/
theorem c1_counterexample :
    RecEvent.launchReceiver ∈ record 16 ∧
    RecEvent.waitReadinessMarker ∉ record 16 := by
  decide

/-- C1 (amended): the launch ordering does hold — the spectrometer process
is launched strictly before the receiver process — but unconditionally:
`record` performs no readiness wait and has no failure path, so the
receiver is launched even if the spectrometer exits before producing any
log marker. -/
theorem c1_amended_launch_order (input_nchans : ℕ) :
    (record input_nchans)[3]? = some RecEvent.launchSpectrometer ∧
    (record input_nchans)[4]? = some RecEvent.launchReceiver ∧
    RecEvent.waitReadinessMarker ∉ record input_nchans := by
  refine ⟨rfl, rfl, ?_⟩
  simp [record]
